import Mathlib

/-!
Shallow embedding of the numerical core and interaction state machine of the
`regression` repository (a correlation / regression teaching visualizer).

Sources embedded here:
  * `src/src/App.jsx` — the current variant: `computeCorrelation`,
    `computeRegressionLine`, `generateCorrelatedData`, the slider / button
    handlers and the derived render values;
  * `src/src/App_old.jsx` and `src/unnamed/part_000` — an older variant whose
    `computeRegressionLine` also returns a `meanY` property;
  * `src/unnamed/part_001` — a variant whose pre-fit baseline line sits at
    `y = 0` instead of the sample mean.

JS numbers are modelled as real numbers (exact arithmetic); the impure
`randn()` source of standard-normal draws is modelled as an oracle
`draws : ℕ → ℝ × ℝ` giving the pair `(z1, z2)` consumed by iteration `i` of
the generation loop.
-/

namespace CorrVis

/-- A data point, the JS object `{x, y}` pushed by `generateCorrelatedData`
and consumed by the statistics functions. -/
structure Point where
  x : ℝ
  y : ℝ

/-- Result record of the `computeRegressionLine` functions.  A JS object need
not carry a `meanY` property: the `App.jsx` / `part_001` variant returns only
`{slope, intercept}`, while `App_old.jsx` / `part_000` also include `meanY`.
Reading an absent property yields `undefined` in JS, modelled here by an
`Option` field that is `none` when the variant omits the property. -/
structure RegressionResult where
  slope : ℝ
  intercept : ℝ
  meanY : Option ℝ

/-- JS accumulation `l.reduce((acc, d) => acc + f(d), 0)`, also the `for` /
`forEach` loops that add `f(d)` of every element into a mutable accumulator
initialised to `0`. -/
def accumSum {α : Type} (f : α → ℝ) (l : List α) : ℝ :=
  l.foldl (fun acc d => acc + f d) 0

/-- The `computeRegressionLine` of `App.jsx` lines 51-73 (identical in
`part_001` lines 50-72): ordinary least squares.  It never returns a `meanY`
property (`meanY := none`). -/
noncomputable def computeRegressionLine (data : List Point) : RegressionResult :=
  let n := data.length
  if n = 0 then ⟨0, 0, none⟩
  else
    let meanX := accumSum (fun d => d.x) data / n
    let meanY := accumSum (fun d => d.y) data / n
    let numerator := accumSum (fun d => (d.x - meanX) * (d.y - meanY)) data
    let denominator := accumSum (fun d => (d.x - meanX) * (d.x - meanX)) data
    if denominator = 0 then ⟨0, meanY, none⟩
    else
      let slope := numerator / denominator
      ⟨slope, meanY - slope * meanX, none⟩

/-- The `computeRegressionLine` of `App_old.jsx` lines 51-75 and `part_000`
lines 41-62: same least squares, but every return object also carries the
`meanY` property. -/
noncomputable def computeRegressionLineOld (data : List Point) : RegressionResult :=
  let n := data.length
  if n = 0 then ⟨0, 0, some 0⟩
  else
    let sumX := accumSum (fun d => d.x) data
    let sumY := accumSum (fun d => d.y) data
    let meanX := sumX / n
    let meanY := sumY / n
    let numerator := accumSum (fun d => (d.x - meanX) * (d.y - meanY)) data
    let denominator := accumSum (fun d => (d.x - meanX) * (d.x - meanX)) data
    if denominator = 0 then ⟨0, meanY, some meanY⟩
    else
      let slope := numerator / denominator
      ⟨slope, meanY - slope * meanX, some meanY⟩

/-- The `computeCorrelation` of `App.jsx` lines 25-48 (identical in
`App_old.jsx`, `part_000` and `part_001`): Pearson correlation.  The JS `for`
loop walks the two arrays in lockstep over the indices of `xVals` (callers
always pass equal-length arrays), modelled by folding over `xVals.zip yVals`;
the guard `denomX === 0 || denomY === 0` returns the sentinel `0`. -/
noncomputable def computeCorrelation (xVals yVals : List ℝ) : ℝ :=
  let n := xVals.length
  if n ≤ 1 then 0
  else
    let meanX := accumSum id xVals / n
    let meanY := accumSum id yVals / n
    let numerator := accumSum (fun p => (p.1 - meanX) * (p.2 - meanY)) (xVals.zip yVals)
    let denomX := accumSum (fun p => (p.1 - meanX) * (p.1 - meanX)) (xVals.zip yVals)
    let denomY := accumSum (fun p => (p.2 - meanY) * (p.2 - meanY)) (xVals.zip yVals)
    if denomX = 0 ∨ denomY = 0 then 0
    else numerator / Real.sqrt (denomX * denomY)

/-- Transcribed from the words of spec §4.3: the mean of a list (division by
zero yields Lean's `x / 0 = 0` on the empty list). -/
noncomputable def specMean (l : List ℝ) : ℝ := l.sum / l.length

/-- Transcribed from the words of spec §4.3 and §7: the sum of squared
deviations of a dimension from its mean (the quantity whose vanishing marks a
degenerate, constant dimension). -/
noncomputable def specSsDev (l : List ℝ) : ℝ :=
  (l.map fun v => (v - specMean l) * (v - specMean l)).sum

/-- Transcribed from the words of spec §4.3: two-pass variance (mean first,
then sum of centered squares, divided by the count). -/
noncomputable def specVariance (l : List ℝ) : ℝ := specSsDev l / l.length

/-- Transcribed from the words of spec §4.3: two-pass covariance. -/
noncomputable def specCovariance (xs ys : List ℝ) : ℝ :=
  ((xs.zip ys).map fun p => (p.1 - specMean xs) * (p.2 - specMean ys)).sum / xs.length

/-- Transcribed from the words of spec §4.3: Pearson correlation as
`covariance(x,y) / sqrt(variance(x)·variance(y))`. -/
noncomputable def specPearson (xs ys : List ℝ) : ℝ :=
  specCovariance xs ys / Real.sqrt (specVariance xs * specVariance ys)

/-- Raw y-value of one iteration of the generation loop in
`generateCorrelatedData`: `corr * z1 + Math.sqrt(1 - corr * corr) * z2`. -/
noncomputable def rawY (corr z1 z2 : ℝ) : ℝ :=
  corr * z1 + Real.sqrt (1 - corr * corr) * z2

/-- JS `Math.min(...l)` for a nonempty array; 0 on the empty array, a value
the source never reads because the rescale loop is then empty. -/
noncomputable def jsMin : List ℝ → ℝ
  | [] => 0
  | x :: xs => xs.foldl min x

/-- JS `Math.max(...l)` for a nonempty array; 0 on the empty array. -/
noncomputable def jsMax : List ℝ → ℝ
  | [] => 0
  | x :: xs => xs.foldl max x

/-- JS `(maxRaw - minRaw) || 1`: the rescale divisor, treated as 1 when the
raw range is 0 to avoid division by zero. -/
noncomputable def rangeOr1 (r : ℝ) : ℝ := if r = 0 then 1 else r

/-- The array `xRaw` built by the generation loop of `generateCorrelatedData`:
`xRaw[i] = z1` of iteration `i`, whose two normal draws come from the oracle
`draws` standing for the impure `randn()`. -/
def xRawList (n : ℕ) (draws : ℕ → ℝ × ℝ) : List ℝ :=
  (List.range n).map fun i => (draws i).1

/-- The array `yRaw` built by the generation loop:
`yRaw[i] = corr * z1 + sqrt(1 - corr²) * z2` of iteration `i`. -/
noncomputable def yRawList (corr : ℝ) (n : ℕ) (draws : ℕ → ℝ × ℝ) : List ℝ :=
  (List.range n).map fun i => rawY corr (draws i).1 (draws i).2

/-- One rescaled coordinate of `generateCorrelatedData`:
`xMin + ((raw - minRaw) / range) * (xMax - xMin)`. -/
noncomputable def scaleVal (lo hi minRaw range v : ℝ) : ℝ :=
  lo + ((v - minRaw) / range) * (hi - lo)

/-- The `generateCorrelatedData` of `App.jsx` lines 77-118 (identical in the
other variants): draw `n` correlated raw pairs, then rescale each dimension
from its own `[min, max]` to `[xMin, xMax]`.  The final loop pairs `xRaw[i]`
with `yRaw[i]` for `i < n`, modelled as a map over `xRaw.zip yRaw`. -/
noncomputable def generateCorrelatedData (corr : ℝ) (n : ℕ) (xMin xMax : ℝ)
    (draws : ℕ → ℝ × ℝ) : List Point :=
  let xRaw := xRawList n draws
  let yRaw := yRawList corr n draws
  let rangeXraw := rangeOr1 (jsMax xRaw - jsMin xRaw)
  let rangeYraw := rangeOr1 (jsMax yRaw - jsMin yRaw)
  (xRaw.zip yRaw).map fun p =>
    ⟨scaleVal xMin xMax (jsMin xRaw) rangeXraw p.1,
     scaleVal xMin xMax (jsMin yRaw) rangeYraw p.2⟩

/-- Concrete draw oracle refuting the unconditional extreme-attainment claim:
both loop iterations draw `z1 = 1`, so the raw x-dimension is constant. -/
noncomputable def genCexDraws : ℕ → ℝ × ℝ := fun i => if i = 0 then (1, 1) else (1, 2)

/-- Concrete draw oracle for the witness: iteration `i` draws `(i, i)`. -/
def genWitDraws : ℕ → ℝ × ℝ := fun i => ((i : ℝ), (i : ℝ))

/-- React state of the App component of `App.jsx`: the four `useState` hooks
`corr`, `sampleSize`, `fitLine`, `showDistances`.  The sliders parse their
input with `parseFloat` / `parseInt`, modelled as a real for `corr` and a
natural number for `sampleSize`. -/
structure AppState where
  corr : ℝ
  sampleSize : ℕ
  fitLine : Bool
  showDistances : Bool

/-- Initial state of `App.jsx`: `corr = 0`, `sampleSize = 200`, not fitted. -/
def initialState : AppState := ⟨0, 200, false, false⟩

/-- Transition of the correlation slider handler (`App.jsx` lines 203-207):
`setFitLine(false); setShowDistances(false); setCorr(parseFloat(value))`.
The parsed value is stored unchanged. -/
def setCorrelation (s : AppState) (r : ℝ) : AppState :=
  ⟨r, s.sampleSize, false, false⟩

/-- Transition of the sample-size slider handler (`App.jsx` lines 219-223):
`setFitLine(false); setShowDistances(false); setSampleSize(parseInt(value))`.
The parsed value is stored unchanged. -/
def setSampleSize (s : AppState) (n : ℕ) : AppState :=
  ⟨s.corr, n, false, false⟩

/-- Transition of the fit button handler (`App.jsx` lines 232-235):
`setFitLine(true); setShowDistances(true)`; parameters untouched. -/
def fitTransition (s : AppState) : AppState :=
  ⟨s.corr, s.sampleSize, true, true⟩

/-- User actions of the interaction state machine. -/
inductive Action where
  | setCorr (r : ℝ)
  | setSize (n : ℕ)
  | fitClick

/-- One step of the interaction state machine of `App.jsx`. -/
def step (s : AppState) : Action → AppState
  | Action.setCorr r => setCorrelation s r
  | Action.setSize n => setSampleSize s n
  | Action.fitClick => fitTransition s

/-- DisplayMode of spec §3. -/
inductive DisplayMode where
  | Baseline
  | Fitted
deriving DecidableEq

/-- The display mode encoded by the `fitLine` flag: `Fitted` when set,
`Baseline` otherwise. -/
def displayMode (s : AppState) : DisplayMode :=
  if s.fitLine then DisplayMode.Fitted else DisplayMode.Baseline

/-- Values derived during one render of the App component (`App.jsx` lines
127-171): the memoized sample, regression, mean of y, displayed line
parameters, the two endpoints of the drawn line, and the residual segments. -/
structure RenderView where
  scatterData : List Point
  slope : ℝ
  intercept : ℝ
  meanY : ℝ
  displayedSlope : ℝ
  displayedIntercept : ℝ
  linePoints : List Point
  residualLines : List (List Point)

/-- One render pass of `App.jsx` from the current state; `draws` is the
oracle of normal draws consumed by the memoized `generateCorrelatedData`
call.  `meanY` is the separate memo of lines 145-150 with its empty-sample
guard; `displayedSlope` and `displayedIntercept` are lines 155-156;
`linePoints` lines 159-162; `residualLines` lines 165-171, built from the
fitted `slope` / `intercept`, not the displayed ones. -/
noncomputable def render (s : AppState) (draws : ℕ → ℝ × ℝ) : RenderView :=
  let scatterData := generateCorrelatedData s.corr s.sampleSize 0 10 draws
  let reg := computeRegressionLine scatterData
  let meanY := if scatterData.length = 0 then 0
    else accumSum (fun d => d.y) scatterData / scatterData.length
  let displayedSlope := if s.fitLine then reg.slope else 0
  let displayedIntercept := if s.fitLine then reg.intercept else meanY
  ⟨scatterData, reg.slope, reg.intercept, meanY, displayedSlope, displayedIntercept,
    [⟨0, displayedIntercept⟩, ⟨10, displayedSlope * 10 + displayedIntercept⟩],
    scatterData.map fun d => [⟨d.x, d.y⟩, ⟨d.x, reg.slope * d.x + reg.intercept⟩]⟩

/-- Displayed slope of the `part_001` variant (its line 145): regression
slope when fitted, 0 otherwise. -/
noncomputable def renderP1displayedSlope (s : AppState) (draws : ℕ → ℝ × ℝ) : ℝ :=
  if s.fitLine
  then (computeRegressionLine (generateCorrelatedData s.corr s.sampleSize 0 10 draws)).slope
  else 0

/-- Displayed intercept of the `part_001` variant (its line 146): the
Baseline fallback is `0`, not the sample mean of y. -/
noncomputable def renderP1displayedIntercept (s : AppState) (draws : ℕ → ℝ × ℝ) : ℝ :=
  if s.fitLine
  then (computeRegressionLine (generateCorrelatedData s.corr s.sampleSize 0 10 draws)).intercept
  else 0

/-- Concrete draw oracle for the `part_001` counterexample: iteration `i`
draws `(i, i)`. -/
def p1CexDraws : ℕ → ℝ × ℝ := fun i => ((i : ℝ), (i : ℝ))

/-- Helper relating the JS fold to `List.sum`. -/
theorem accumSum_eq_sum_map {α : Type} (f : α → ℝ) (l : List α) :
    accumSum f l = (l.map f).sum := by
  have h : ∀ (t : List α) (c : ℝ), t.foldl (fun acc d => acc + f d) c = c + (t.map f).sum := by
    intro t
    induction t with
    | nil => intro c; simp
    | cons d tl ih =>
      intro c
      simp only [List.foldl_cons, List.map_cons, List.sum_cons, ih]
      ring
  simpa [accumSum] using h l 0

/-- Helper: the squared-deviation sum of the first components of a zip of
equal-length lists is the squared-deviation sum of the first list. -/
theorem zip_sq_fst_sum {β : Type} :
    ∀ (xs : List ℝ) (ys : List β) (c : ℝ), xs.length = ys.length →
      (List.map (fun p => (p.1 - c) * (p.1 - c)) (xs.zip ys)).sum =
        (List.map (fun v => (v - c) * (v - c)) xs).sum := by
  intro xs
  induction xs with
  | nil => intro ys c h; simp
  | cons a t ih =>
    intro ys c h
    cases ys with
    | nil => simp at h
    | cons b u =>
      simp only [List.zip_cons_cons, List.map_cons, List.sum_cons]
      rw [ih u c (by simpa using h)]

/-- Helper: the squared-deviation sum of the second components of a zip of
equal-length lists is the squared-deviation sum of the second list. -/
theorem zip_sq_snd_sum {β : Type} :
    ∀ (xs : List β) (ys : List ℝ) (c : ℝ), xs.length = ys.length →
      (List.map (fun p => (p.2 - c) * (p.2 - c)) (xs.zip ys)).sum =
        (List.map (fun v => (v - c) * (v - c)) ys).sum := by
  intro xs
  induction xs with
  | nil =>
    intro ys c h
    cases ys with
    | nil => simp
    | cons b u => simp at h
  | cons a t ih =>
    intro ys c h
    cases ys with
    | nil => simp at h
    | cons b u =>
      simp only [List.zip_cons_cons, List.map_cons, List.sum_cons]
      rw [ih u c (by simpa using h)]

/-- Helper: zipping a list with itself pairs every element with itself. -/
theorem zip_self_eq_map {α : Type} (l : List α) : l.zip l = l.map fun v => (v, v) := by
  induction l with
  | nil => rfl
  | cons a t ih => simp [List.zip_cons_cons, ih]

/-- Helper: a sum over the self-zip is the corresponding sum over the list. -/
theorem zip_self_map_sum (l : List ℝ) (f : ℝ × ℝ → ℝ) :
    ((l.zip l).map f).sum = (l.map fun v => f (v, v)).sum := by
  rw [zip_self_eq_map, List.map_map]
  rfl

/-- Helper: a sum of squared deviations is nonnegative. -/
theorem sum_sq_dev_nonneg (l : List ℝ) (m : ℝ) :
    0 ≤ (l.map fun v => (v - m) * (v - m)).sum := by
  apply List.sum_nonneg
  intro x hx
  obtain ⟨v, _, rfl⟩ := List.mem_map.1 hx
  exact mul_self_nonneg _

/-- Helper: a list with two distinct elements has positive sum of squared
deviations from any value `m` (at most one of the two elements can equal `m`). -/
theorem sum_sq_dev_pos (l : List ℝ) (m : ℝ) (h : ∃ a ∈ l, ∃ b ∈ l, a ≠ b) :
    0 < (l.map fun v => (v - m) * (v - m)).sum := by
  obtain ⟨a, ha, b, hb, hab⟩ := h
  have hnn : ∀ x ∈ l.map fun v => (v - m) * (v - m), 0 ≤ x := by
    intro x hx
    obtain ⟨v, _, rfl⟩ := List.mem_map.1 hx
    exact mul_self_nonneg _
  have key : ∃ c ∈ l, c ≠ m := by
    rcases eq_or_ne a m with rfl | ham
    · exact ⟨b, hb, Ne.symm hab⟩
    · exact ⟨a, ha, ham⟩
  obtain ⟨c, hc, hcm⟩ := key
  have hpos : 0 < (c - m) * (c - m) := mul_self_pos.mpr (sub_ne_zero.mpr hcm)
  have hmem : (c - m) * (c - m) ∈ l.map fun v => (v - m) * (v - m) :=
    List.mem_map.2 ⟨c, hc, rfl⟩
  exact lt_of_lt_of_le hpos (List.single_le_sum hnn _ hmem)

/-- Claim C6: for equal-length inputs, `computeCorrelation` returns `0` when
the length is at most 1 or either sum of squared deviations vanishes, and
otherwise equals the two-pass Pearson formula of the spec
(`covariance / sqrt(variance·variance)`). -/
theorem correlation_cases (xs ys : List ℝ) (hlen : xs.length = ys.length) :
    ((xs.length ≤ 1 ∨ specSsDev xs = 0 ∨ specSsDev ys = 0) →
      computeCorrelation xs ys = 0) ∧
    (¬(xs.length ≤ 1 ∨ specSsDev xs = 0 ∨ specSsDev ys = 0) →
      computeCorrelation xs ys = specPearson xs ys) := by
  have hcast : ((xs.length : ℝ)) = ((ys.length : ℝ)) := by exact_mod_cast hlen
  have hx : (List.map (fun p =>
      (p.1 - xs.sum / (ys.length : ℝ)) * (p.1 - xs.sum / (ys.length : ℝ))) (xs.zip ys)).sum =
      specSsDev xs := by
    rw [zip_sq_fst_sum xs ys _ hlen]
    simp [specSsDev, specMean, hcast]
  have hy : (List.map (fun p =>
      (p.2 - ys.sum / (ys.length : ℝ)) * (p.2 - ys.sum / (ys.length : ℝ))) (xs.zip ys)).sum =
      specSsDev ys := by
    rw [zip_sq_snd_sum xs ys _ hlen]
    simp [specSsDev, specMean]
  constructor
  · intro hdeg
    rcases le_or_lt xs.length 1 with h1 | h1
    · simp only [computeCorrelation]
      rw [if_pos h1]
    · have hd : specSsDev xs = 0 ∨ specSsDev ys = 0 := by
        rcases hdeg with h | h | h
        · omega
        · exact Or.inl h
        · exact Or.inr h
      simp only [computeCorrelation, accumSum_eq_sum_map, List.map_id]
      rw [if_neg (by omega), hlen, hx, hy, if_pos hd]
  · intro hnd
    push_neg at hnd
    obtain ⟨h1, hdx, hdy⟩ := hnd
    simp only [computeCorrelation, accumSum_eq_sum_map, List.map_id]
    rw [if_neg (by omega), hlen, hx, hy,
      if_neg (by rintro (h | h); exacts [hdx h, hdy h])]
    have hn : (0 : ℝ) < ((ys.length : ℝ)) := by
      rw [← hcast]
      exact_mod_cast Nat.lt_of_lt_of_le Nat.zero_lt_one h1.le
    have hdxnn : 0 ≤ specSsDev xs := by
      have h := sum_sq_dev_nonneg xs (specMean xs)
      simpa [specSsDev] using h
    have hdynn : 0 ≤ specSsDev ys := by
      have h := sum_sq_dev_nonneg ys (specMean ys)
      simpa [specSsDev] using h
    have hsq : Real.sqrt (specVariance xs * specVariance ys) =
        Real.sqrt (specSsDev xs * specSsDev ys) / ((ys.length : ℝ)) := by
      have hrw : specVariance xs * specVariance ys =
          (specSsDev xs * specSsDev ys) / (((ys.length : ℝ)) * ((ys.length : ℝ))) := by
        simp only [specVariance, hcast]
        ring
      rw [hrw, Real.sqrt_div (mul_nonneg hdxnn hdynn), Real.sqrt_mul_self hn.le]
    simp only [specPearson, specCovariance, specMean, hsq, hcast]
    rcases eq_or_ne (Real.sqrt (specSsDev xs * specSsDev ys)) 0 with hS | hS
    · rw [hS]
      simp
    · field_simp

/-- Claim C6 witness: the two cases instantiated at the concrete equal-length
arrays `[0, 1]` and `[0, 2]`. -/
theorem correlation_cases_witness :
    ((([0, 1] : List ℝ).length ≤ 1 ∨ specSsDev [0, 1] = 0 ∨ specSsDev [0, 2] = 0) →
      computeCorrelation [0, 1] [0, 2] = 0) ∧
    (¬(([0, 1] : List ℝ).length ≤ 1 ∨ specSsDev [0, 1] = 0 ∨ specSsDev [0, 2] = 0) →
      computeCorrelation [0, 1] [0, 2] = specPearson [0, 1] [0, 2]) :=
  correlation_cases [0, 1] [0, 2] rfl

/-- Claim C7: on a non-constant list of length at least 2, the correlation of
the list with itself is exactly 1. -/
theorem correlation_self_eq_one (xs : List ℝ) (h2 : 2 ≤ xs.length)
    (hne : ∃ a ∈ xs, ∃ b ∈ xs, a ≠ b) :
    computeCorrelation xs xs = 1 := by
  simp only [computeCorrelation, accumSum_eq_sum_map, List.map_id]
  rw [if_neg (by omega)]
  rw [zip_self_map_sum, zip_self_map_sum, zip_self_map_sum]
  have hpos : 0 < (xs.map fun v =>
      (v - xs.sum / (xs.length : ℝ)) * (v - xs.sum / (xs.length : ℝ))).sum :=
    sum_sq_dev_pos xs _ hne
  rw [if_neg (by rintro (h | h) <;> exact hpos.ne' h)]
  rw [Real.sqrt_mul_self hpos.le, div_self hpos.ne']

/-- Claim C7 witness: the correlation of the non-constant list `[0, 1]` with
itself is 1. -/
theorem correlation_self_eq_one_witness : computeCorrelation [0, 1] [0, 1] = 1 :=
  correlation_self_eq_one [0, 1] (by norm_num)
    ⟨0, by simp, 1, by simp, by norm_num⟩

/-- Helper: the sum of an affine image `a·f + b` over a list. -/
theorem sum_map_linear {α : Type} (a b : ℝ) (f : α → ℝ) (l : List α) :
    (l.map fun d => a * f d + b).sum = a * (l.map f).sum + b * l.length := by
  induction l with
  | nil => simp
  | cons d t ih =>
    simp only [List.map_cons, List.sum_cons, List.length_cons, ih]
    push_cast
    ring

/-- Helper: doubling under a list sum. -/
theorem sum_map_twice {α : Type} (f : α → ℝ) (l : List α) :
    (l.map fun d => 2 * f d).sum = 2 * (l.map f).sum := by
  induction l with
  | nil => simp
  | cons d t ih =>
    simp only [List.map_cons, List.sum_cons, ih]
    ring

/-- Claim C8: on a sample whose points all lie exactly on `y = 2·x + 3` and
which has at least two distinct x-values, `computeRegressionLine` returns
slope exactly 2 and intercept exactly 3 (exact real arithmetic). -/
theorem regress_recovers_line (data : List Point)
    (hline : ∀ d ∈ data, d.y = 2 * d.x + 3)
    (hx : ∃ d₁ ∈ data, ∃ d₂ ∈ data, d₁.x ≠ d₂.x) :
    (computeRegressionLine data).slope = 2 ∧ (computeRegressionLine data).intercept = 3 := by
  obtain ⟨d₁, hd₁, d₂, hd₂, hdx⟩ := hx
  have hn0 : data.length ≠ 0 := by
    intro h
    rw [List.length_eq_zero] at h
    subst h
    simp at hd₁
  have hnR : ((data.length : ℝ)) ≠ 0 := Nat.cast_ne_zero.mpr hn0
  set m := (data.map fun d => d.x).sum / ((data.length : ℝ)) with hm
  have hD : 0 < (data.map fun d => (d.x - m) * (d.x - m)).sum := by
    have hmm : data.map (fun d => (d.x - m) * (d.x - m)) =
        (data.map fun d => d.x).map fun v => (v - m) * (v - m) := by
      simp [List.map_map, Function.comp_def]
    rw [hmm]
    exact sum_sq_dev_pos _ m ⟨d₁.x, List.mem_map.2 ⟨d₁, hd₁, rfl⟩,
      d₂.x, List.mem_map.2 ⟨d₂, hd₂, rfl⟩, hdx⟩
  have hmy : (data.map fun d => d.y).sum / ((data.length : ℝ)) = 2 * m + 3 := by
    have hmap : data.map (fun d => d.y) = data.map fun d => 2 * d.x + 3 :=
      List.map_congr_left hline
    rw [hmap, sum_map_linear, hm]
    field_simp
  have hnum : (data.map fun d => (d.x - m) * (d.y - (2 * m + 3))).sum =
      2 * (data.map fun d => (d.x - m) * (d.x - m)).sum := by
    have hmap : data.map (fun d => (d.x - m) * (d.y - (2 * m + 3))) =
        data.map fun d => 2 * ((d.x - m) * (d.x - m)) := by
      apply List.map_congr_left
      intro d hd
      rw [hline d hd]
      ring
    rw [hmap, sum_map_twice]
  have hres : computeRegressionLine data = ⟨2, 3, none⟩ := by
    simp only [computeRegressionLine, accumSum_eq_sum_map]
    rw [if_neg hn0, ← hm, hmy, hnum, if_neg hD.ne']
    have h2D : 2 * (data.map fun d => (d.x - m) * (d.x - m)).sum /
        (data.map fun d => (d.x - m) * (d.x - m)).sum = 2 := by
      rw [mul_div_assoc, div_self hD.ne', mul_one]
    rw [h2D]
    simp only [RegressionResult.mk.injEq]
    refine ⟨trivial, by ring, trivial⟩
  rw [hres]
  exact ⟨rfl, rfl⟩

/-- Claim C8 witness: the two exact points `(0, 3)` and `(1, 5)` on the line
`y = 2x + 3` yield slope 2 and intercept 3. -/
theorem regress_recovers_line_witness :
    (computeRegressionLine [⟨0, 3⟩, ⟨1, 5⟩]).slope = 2 ∧
    (computeRegressionLine [⟨0, 3⟩, ⟨1, 5⟩]).intercept = 3 :=
  regress_recovers_line [⟨0, 3⟩, ⟨1, 5⟩]
    (by
      intro d hd
      rcases List.mem_cons.mp hd with h | hd2
      · rw [h]
        norm_num
      · rcases List.mem_cons.mp hd2 with h | h3
        · rw [h]
          norm_num
        · simp at h3)
    ⟨⟨0, 3⟩, by simp, ⟨1, 5⟩, by simp, by norm_num⟩

/-- Helper: a fold of `min` is bounded by its initial value. -/
theorem foldl_min_le_init : ∀ (xs : List ℝ) (a : ℝ), xs.foldl min a ≤ a
  | [], a => le_refl a
  | x :: xs, a => le_trans (foldl_min_le_init xs (min a x)) (min_le_left a x)

/-- Helper: a fold of `min` is bounded by every list element. -/
theorem foldl_min_le_mem : ∀ (xs : List ℝ) (a v : ℝ), v ∈ xs → xs.foldl min a ≤ v := by
  intro xs
  induction xs with
  | nil => intro a v hv; simp at hv
  | cons x t ih =>
    intro a v hv
    rcases List.mem_cons.mp hv with rfl | hvt
    · exact le_trans (foldl_min_le_init t (min a v)) (min_le_right a v)
    · exact ih (min a x) v hvt

/-- Helper: a fold of `min` returns its initial value or a list element. -/
theorem foldl_min_mem : ∀ (xs : List ℝ) (a : ℝ), xs.foldl min a = a ∨ xs.foldl min a ∈ xs := by
  intro xs
  induction xs with
  | nil => intro a; exact Or.inl rfl
  | cons x t ih =>
    intro a
    rcases ih (min a x) with h | h
    · rcases min_choice a x with hc | hc
      · exact Or.inl (by rw [List.foldl_cons, h, hc])
      · exact Or.inr (by rw [List.foldl_cons, h, hc]; exact List.mem_cons_self x t)
    · exact Or.inr (List.mem_cons_of_mem x h)

/-- Helper: a fold of `max` dominates its initial value. -/
theorem le_foldl_max_init : ∀ (xs : List ℝ) (a : ℝ), a ≤ xs.foldl max a
  | [], a => le_refl a
  | x :: xs, a => le_trans (le_max_left a x) (le_foldl_max_init xs (max a x))

/-- Helper: a fold of `max` dominates every list element. -/
theorem le_foldl_max_mem : ∀ (xs : List ℝ) (a v : ℝ), v ∈ xs → v ≤ xs.foldl max a := by
  intro xs
  induction xs with
  | nil => intro a v hv; simp at hv
  | cons x t ih =>
    intro a v hv
    rcases List.mem_cons.mp hv with rfl | hvt
    · exact le_trans (le_max_right a v) (le_foldl_max_init t (max a v))
    · exact ih (max a x) v hvt

/-- Helper: a fold of `max` returns its initial value or a list element. -/
theorem foldl_max_mem : ∀ (xs : List ℝ) (a : ℝ), xs.foldl max a = a ∨ xs.foldl max a ∈ xs := by
  intro xs
  induction xs with
  | nil => intro a; exact Or.inl rfl
  | cons x t ih =>
    intro a
    rcases ih (max a x) with h | h
    · rcases max_choice a x with hc | hc
      · exact Or.inl (by rw [List.foldl_cons, h, hc])
      · exact Or.inr (by rw [List.foldl_cons, h, hc]; exact List.mem_cons_self x t)
    · exact Or.inr (List.mem_cons_of_mem x h)

/-- Helper: `jsMin` bounds every element from below. -/
theorem jsMin_le (l : List ℝ) (v : ℝ) (hv : v ∈ l) : jsMin l ≤ v := by
  cases l with
  | nil => simp at hv
  | cons a t =>
    rcases List.mem_cons.mp hv with rfl | hvt
    · exact foldl_min_le_init t v
    · exact foldl_min_le_mem t a v hvt

/-- Helper: `jsMax` bounds every element from above. -/
theorem le_jsMax (l : List ℝ) (v : ℝ) (hv : v ∈ l) : v ≤ jsMax l := by
  cases l with
  | nil => simp at hv
  | cons a t =>
    rcases List.mem_cons.mp hv with rfl | hvt
    · exact le_foldl_max_init t v
    · exact le_foldl_max_mem t a v hvt

/-- Helper: on a nonempty list `jsMin` is an element. -/
theorem jsMin_mem (l : List ℝ) (hl : l ≠ []) : jsMin l ∈ l := by
  cases l with
  | nil => exact absurd rfl hl
  | cons a t =>
    rcases foldl_min_mem t a with h | h
    · rw [jsMin, h]; exact List.mem_cons_self a t
    · exact List.mem_cons_of_mem a (by rw [jsMin]; exact h)

/-- Helper: on a nonempty list `jsMax` is an element. -/
theorem jsMax_mem (l : List ℝ) (hl : l ≠ []) : jsMax l ∈ l := by
  cases l with
  | nil => exact absurd rfl hl
  | cons a t =>
    rcases foldl_max_mem t a with h | h
    · rw [jsMax, h]; exact List.mem_cons_self a t
    · exact List.mem_cons_of_mem a (by rw [jsMax]; exact h)

/-- Helper: rescaling the raw minimum itself lands exactly on `lo`. -/
theorem scaleVal_min_eq (lo hi m R : ℝ) : scaleVal lo hi m R m = lo := by
  simp [scaleVal]

/-- Helper: rescaling the raw maximum lands exactly on `hi` when the raw range
is nonzero. -/
theorem scaleVal_max_eq (lo hi m M : ℝ) (h : M - m ≠ 0) :
    scaleVal lo hi m (rangeOr1 (M - m)) M = hi := by
  simp only [scaleVal, rangeOr1, if_neg h]
  rw [div_self h]
  ring

/-- Helper: a rescaled value stays inside `[lo, hi]` whenever the raw value
lies between the raw minimum and maximum used for the rescale. -/
theorem scaleVal_bounds (lo hi m M v : ℝ) (hlh : lo ≤ hi) (hmv : m ≤ v) (hvM : v ≤ M) :
    lo ≤ scaleVal lo hi m (rangeOr1 (M - m)) v ∧ scaleVal lo hi m (rangeOr1 (M - m)) v ≤ hi := by
  rcases eq_or_ne (M - m) 0 with h0 | h0
  · have hvm : v = m := le_antisymm (by linarith [sub_eq_zero.mp h0]) hmv
    rw [hvm, scaleVal_min_eq]
    exact ⟨le_refl lo, hlh⟩
  · have hR : 0 < M - m := lt_of_le_of_ne (by linarith) (Ne.symm h0)
    simp only [rangeOr1, if_neg h0, scaleVal]
    have ht0 : 0 ≤ (v - m) / (M - m) := div_nonneg (by linarith) hR.le
    have ht1 : (v - m) / (M - m) ≤ 1 := (div_le_one hR).mpr (by linarith)
    constructor
    · nlinarith
    · nlinarith

/-- Helper: `xRawList` has length `n`. -/
theorem xRawList_length (n : ℕ) (draws : ℕ → ℝ × ℝ) : (xRawList n draws).length = n := by
  simp [xRawList]

/-- Helper: `yRawList` has length `n`. -/
theorem yRawList_length (corr : ℝ) (n : ℕ) (draws : ℕ → ℝ × ℝ) :
    (yRawList corr n draws).length = n := by
  simp [yRawList]

/-- Helper: every raw x-value yields a generated point whose x-coordinate is
its rescale image (and symmetrically a raw y-value for the y-coordinate). -/
theorem generate_attains_x (corr : ℝ) (n : ℕ) (xMin xMax : ℝ) (draws : ℕ → ℝ × ℝ)
    (v : ℝ) (hv : v ∈ xRawList n draws) :
    ∃ p ∈ generateCorrelatedData corr n xMin xMax draws,
      p.x = scaleVal xMin xMax (jsMin (xRawList n draws))
        (rangeOr1 (jsMax (xRawList n draws) - jsMin (xRawList n draws))) v := by
  obtain ⟨i, hi, hgi⟩ := List.mem_iff_getElem.1 hv
  have hiz : i < ((xRawList n draws).zip (yRawList corr n draws)).length := by
    rw [List.length_zip, xRawList_length, yRawList_length]
    rw [xRawList_length] at hi
    omega
  refine ⟨_, List.mem_map.2 ⟨((xRawList n draws).zip (yRawList corr n draws))[i],
    List.getElem_mem hiz, rfl⟩, ?_⟩
  have hfst : (((xRawList n draws).zip (yRawList corr n draws))[i]).1 = v := by
    rw [List.getElem_zip]
    exact hgi
  rw [hfst]

/-- Helper: every raw y-value yields a generated point whose y-coordinate is
its rescale image. -/
theorem generate_attains_y (corr : ℝ) (n : ℕ) (xMin xMax : ℝ) (draws : ℕ → ℝ × ℝ)
    (v : ℝ) (hv : v ∈ yRawList corr n draws) :
    ∃ p ∈ generateCorrelatedData corr n xMin xMax draws,
      p.y = scaleVal xMin xMax (jsMin (yRawList corr n draws))
        (rangeOr1 (jsMax (yRawList corr n draws) - jsMin (yRawList corr n draws))) v := by
  obtain ⟨i, hi, hgi⟩ := List.mem_iff_getElem.1 hv
  have hiz : i < ((xRawList n draws).zip (yRawList corr n draws)).length := by
    rw [List.length_zip, xRawList_length, yRawList_length]
    rw [yRawList_length] at hi
    omega
  refine ⟨_, List.mem_map.2 ⟨((xRawList n draws).zip (yRawList corr n draws))[i],
    List.getElem_mem hiz, rfl⟩, ?_⟩
  have hsnd : (((xRawList n draws).zip (yRawList corr n draws))[i]).2 = v := by
    rw [List.getElem_zip]
    exact hgi
  rw [hsnd]

/-- Claim C4 (corrected): for `n ≥ 2`, target correlation in `[-1, 1]` and an
ordered display range, `generateCorrelatedData` returns exactly `n` points,
all coordinates lie in `[rangeMin, rangeMax]`, and each dimension attains
`rangeMin` and `rangeMax` provided the raw draws of that dimension are not all
identical; a constant raw dimension (possible under degenerate draws) maps
every point of that dimension to `rangeMin` only. -/
theorem generate_count_range_extremes (corr xMin xMax : ℝ) (n : ℕ) (draws : ℕ → ℝ × ℝ)
    (hn : 2 ≤ n) (hc1 : -1 ≤ corr) (hc2 : corr ≤ 1) (hrange : xMin ≤ xMax) :
    (generateCorrelatedData corr n xMin xMax draws).length = n ∧
    (∀ p ∈ generateCorrelatedData corr n xMin xMax draws,
      xMin ≤ p.x ∧ p.x ≤ xMax ∧ xMin ≤ p.y ∧ p.y ≤ xMax) ∧
    (jsMin (xRawList n draws) ≠ jsMax (xRawList n draws) →
      (∃ p ∈ generateCorrelatedData corr n xMin xMax draws, p.x = xMin) ∧
      (∃ p ∈ generateCorrelatedData corr n xMin xMax draws, p.x = xMax)) ∧
    (jsMin (yRawList corr n draws) ≠ jsMax (yRawList corr n draws) →
      (∃ p ∈ generateCorrelatedData corr n xMin xMax draws, p.y = xMin) ∧
      (∃ p ∈ generateCorrelatedData corr n xMin xMax draws, p.y = xMax)) := by
  have hxne : xRawList n draws ≠ [] := by
    intro h
    have := congrArg List.length h
    rw [xRawList_length] at this
    simp at this
    omega
  have hyne : yRawList corr n draws ≠ [] := by
    intro h
    have := congrArg List.length h
    rw [yRawList_length] at this
    simp at this
    omega
  refine ⟨?_, ?_, ?_, ?_⟩
  · simp [generateCorrelatedData, List.length_zip, xRawList_length, yRawList_length]
  · intro p hp
    simp only [generateCorrelatedData, List.mem_map] at hp
    obtain ⟨q, hq, rfl⟩ := hp
    obtain ⟨hq1, hq2⟩ := List.of_mem_zip hq
    have hbx := scaleVal_bounds xMin xMax (jsMin (xRawList n draws))
      (jsMax (xRawList n draws)) q.1 hrange
      (jsMin_le _ _ hq1) (le_jsMax _ _ hq1)
    have hby := scaleVal_bounds xMin xMax (jsMin (yRawList corr n draws))
      (jsMax (yRawList corr n draws)) q.2 hrange
      (jsMin_le _ _ hq2) (le_jsMax _ _ hq2)
    exact ⟨hbx.1, hbx.2, hby.1, hby.2⟩
  · intro hdist
    constructor
    · obtain ⟨p, hp, hpx⟩ := generate_attains_x corr n xMin xMax draws
        (jsMin (xRawList n draws)) (jsMin_mem _ hxne)
      exact ⟨p, hp, by rw [hpx, scaleVal_min_eq]⟩
    · obtain ⟨p, hp, hpx⟩ := generate_attains_x corr n xMin xMax draws
        (jsMax (xRawList n draws)) (jsMax_mem _ hxne)
      refine ⟨p, hp, ?_⟩
      rw [hpx, scaleVal_max_eq]
      exact sub_ne_zero.mpr (Ne.symm hdist)
  · intro hdist
    constructor
    · obtain ⟨p, hp, hpy⟩ := generate_attains_y corr n xMin xMax draws
        (jsMin (yRawList corr n draws)) (jsMin_mem _ hyne)
      exact ⟨p, hp, by rw [hpy, scaleVal_min_eq]⟩
    · obtain ⟨p, hp, hpy⟩ := generate_attains_y corr n xMin xMax draws
        (jsMax (yRawList corr n draws)) (jsMax_mem _ hyne)
      refine ⟨p, hp, ?_⟩
      rw [hpy, scaleVal_max_eq]
      exact sub_ne_zero.mpr (Ne.symm hdist)

/-- Claim C4 witness: the amended statement instantiated at `corr = 0`,
`n = 2`, range `[0, 10]` and the concrete draw oracle `genWitDraws`. -/
theorem generate_count_range_extremes_witness :
    (generateCorrelatedData 0 2 0 10 genWitDraws).length = 2 ∧
    (∀ p ∈ generateCorrelatedData 0 2 0 10 genWitDraws,
      (0 : ℝ) ≤ p.x ∧ p.x ≤ 10 ∧ (0 : ℝ) ≤ p.y ∧ p.y ≤ 10) ∧
    (jsMin (xRawList 2 genWitDraws) ≠ jsMax (xRawList 2 genWitDraws) →
      (∃ p ∈ generateCorrelatedData 0 2 0 10 genWitDraws, p.x = 0) ∧
      (∃ p ∈ generateCorrelatedData 0 2 0 10 genWitDraws, p.x = 10)) ∧
    (jsMin (yRawList 0 2 genWitDraws) ≠ jsMax (yRawList 0 2 genWitDraws) →
      (∃ p ∈ generateCorrelatedData 0 2 0 10 genWitDraws, p.y = 0) ∧
      (∃ p ∈ generateCorrelatedData 0 2 0 10 genWitDraws, p.y = 10)) :=
  generate_count_range_extremes 0 0 10 2 genWitDraws (by norm_num) (by norm_num)
    (by norm_num) (by norm_num)

/-- Claim C4 counterexample: with the degenerate draw oracle `genCexDraws`
(`n = 2`, `corr = 0`, range `[0, 10]`) no generated point attains the
x-dimension maximum 10, because both raw x-draws coincide and the whole
x-dimension collapses to `rangeMin`. -/
theorem generate_extremes_cex :
    ¬ ∃ p ∈ generateCorrelatedData 0 2 0 10 genCexDraws, p.x = 10 := by
  have hxl : xRawList 2 genCexDraws = [1, 1] := rfl
  have hyl : yRawList 0 2 genCexDraws = [rawY 0 1 1, rawY 0 1 2] := rfl
  have hy1 : rawY 0 1 1 = 1 := by
    rw [rawY]
    norm_num [Real.sqrt_one]
  have hy2 : rawY 0 1 2 = 2 := by
    rw [rawY]
    norm_num [Real.sqrt_one]
  have hgen : generateCorrelatedData 0 2 0 10 genCexDraws = [⟨0, 0⟩, ⟨0, 10⟩] := by
    simp only [generateCorrelatedData, hxl, hyl, hy1, hy2]
    norm_num [jsMin, jsMax, rangeOr1, scaleVal, List.zip_cons_cons, Point.mk.injEq,
      max_def, min_def]
  rw [hgen]
  rintro ⟨p, hp, hpx⟩
  rcases List.mem_cons.mp hp with rfl | hp2
  · norm_num at hpx
  · rcases List.mem_cons.mp hp2 with rfl | hp3
    · norm_num at hpx
    · simp at hp3

/-- Claim C5: with `n = 1` the rescale divisors are 1 in both dimensions (no
division by zero: the zero raw range is replaced by 1), and
`generate(0, 1, 0, 10)` returns the single point `(0, 0)`, both coordinates
equal to `rangeMin`, for every draw oracle. -/
theorem generate_single_point (draws : ℕ → ℝ × ℝ) :
    rangeOr1 (jsMax (xRawList 1 draws) - jsMin (xRawList 1 draws)) = 1 ∧
    rangeOr1 (jsMax (yRawList 0 1 draws) - jsMin (yRawList 0 1 draws)) = 1 ∧
    generateCorrelatedData 0 1 0 10 draws = [⟨0, 0⟩] := by
  have hxl : xRawList 1 draws = [(draws 0).1] := rfl
  have hyl : yRawList 0 1 draws = [rawY 0 (draws 0).1 (draws 0).2] := rfl
  refine ⟨?_, ?_, ?_⟩
  · rw [hxl]
    simp [jsMin, jsMax, rangeOr1]
  · rw [hyl]
    simp [jsMin, jsMax, rangeOr1]
  · simp only [generateCorrelatedData, hxl, hyl]
    simp [jsMin, jsMax, rangeOr1, scaleVal, Point.mk.injEq]

/-- Claim C1 (corrected): for the empty sample, the `App_old.jsx` / `part_000`
variant returns the full record `{slope: 0, intercept: 0, meanY: 0}`, while
the current `App.jsx` variant returns only `{slope: 0, intercept: 0}` with no
`meanY` property. -/
theorem regress_empty_variants :
    computeRegressionLineOld [] = ⟨0, 0, some 0⟩ ∧
    computeRegressionLine [] = ⟨0, 0, none⟩ :=
  ⟨rfl, rfl⟩

/-- Claim C1 counterexample: the result of the `App.jsx` `computeRegressionLine`
on the empty sample does not contain `meanY = 0`; the property is absent
(`none`). -/
theorem regress_empty_meanY_missing :
    (computeRegressionLine []).meanY ≠ some 0 := by
  simp [computeRegressionLine]

/-- Helper: the guarded mean-of-y computation of the `App.jsx` memo equals
the spec mean of the y-values (Lean division by zero makes the empty case
agree as well). -/
theorem meanY_code_eq_specMean (l : List Point) :
    (if l.length = 0 then (0 : ℝ) else accumSum (fun d => d.y) l / l.length) =
      specMean (l.map fun d => d.y) := by
  rcases eq_or_ne l.length 0 with h | h
  · rw [if_pos h]
    rw [List.length_eq_zero] at h
    subst h
    simp [specMean]
  · rw [if_neg h, accumSum_eq_sum_map]
    simp [specMean]

/-- Claim C2 (corrected): in the `App.jsx` variant the displayed slope is the
regression slope when Fitted and 0 otherwise, and the displayed intercept is
the regression intercept when Fitted and the sample mean of y otherwise; in
the `part_001` variant the Baseline displayed intercept is 0 instead of the
sample mean. -/
theorem displayed_line_derivation (s : AppState) (draws : ℕ → ℝ × ℝ) :
    ((render s draws).displayedSlope =
      if displayMode s = DisplayMode.Fitted then (render s draws).slope else 0) ∧
    ((render s draws).displayedIntercept =
      if displayMode s = DisplayMode.Fitted then (render s draws).intercept
      else specMean ((render s draws).scatterData.map fun d => d.y)) ∧
    (renderP1displayedSlope s draws =
      if displayMode s = DisplayMode.Fitted
      then (computeRegressionLine (generateCorrelatedData s.corr s.sampleSize 0 10 draws)).slope
      else 0) ∧
    (renderP1displayedIntercept s draws =
      if displayMode s = DisplayMode.Fitted
      then (computeRegressionLine (generateCorrelatedData s.corr s.sampleSize 0 10 draws)).intercept
      else 0) := by
  have hmean := meanY_code_eq_specMean (generateCorrelatedData s.corr s.sampleSize 0 10 draws)
  cases hs : s.fitLine with
  | false =>
    simp [render, renderP1displayedSlope, renderP1displayedIntercept, displayMode, hs, ← hmean]
  | true =>
    simp [render, renderP1displayedSlope, renderP1displayedIntercept, displayMode, hs]

/-- Claim C2 counterexample: in the `part_001` variant, at the Baseline state
`⟨0, 2, false, false⟩` with the concrete draw oracle `p1CexDraws`, the
displayed intercept is 0 while the sample mean of y is 5. -/
theorem displayed_intercept_p1_cex :
    renderP1displayedIntercept ⟨0, 2, false, false⟩ p1CexDraws ≠
      specMean ((generateCorrelatedData 0 2 0 10 p1CexDraws).map fun d => d.y) := by
  have hxl : xRawList 2 p1CexDraws = [0, 1] := by
    norm_num [xRawList, p1CexDraws, List.range_succ]
  have hyl : yRawList 0 2 p1CexDraws = [0, 1] := by
    norm_num [yRawList, p1CexDraws, List.range_succ, rawY, Real.sqrt_one]
  have hgen : generateCorrelatedData 0 2 0 10 p1CexDraws = [⟨0, 0⟩, ⟨10, 10⟩] := by
    simp only [generateCorrelatedData, hxl, hyl]
    norm_num [jsMin, jsMax, rangeOr1, scaleVal, List.zip_cons_cons, Point.mk.injEq,
      max_def, min_def]
  rw [hgen]
  have hlhs : renderP1displayedIntercept ⟨0, 2, false, false⟩ p1CexDraws = 0 := rfl
  rw [hlhs]
  norm_num [specMean]

/-- Claim C3 (corrected): the slider handlers store the parsed value
verbatim, with no clamping at the state-machine boundary; the stored
parameters satisfy the bounds exactly when the incoming value does (the
bounds are enforced only by the range inputs of the presentation layer). -/
theorem setter_stores_verbatim (s : AppState) (r : ℝ) (n : ℕ) :
    ((setCorrelation s r).corr = r ∧ (setSampleSize s n).sampleSize = n) ∧
    ((-1 ≤ r ∧ r ≤ 1) →
      (-1 ≤ (setCorrelation s r).corr ∧ (setCorrelation s r).corr ≤ 1)) ∧
    ((10 ≤ n ∧ n ≤ 200) →
      (10 ≤ (setSampleSize s n).sampleSize ∧ (setSampleSize s n).sampleSize ≤ 200)) :=
  ⟨⟨rfl, rfl⟩, fun h => h, fun h => h⟩

/-- Claim C3 counterexample: the out-of-range inputs `r = 2` and `n = 500`
are stored unchanged, leaving the stored parameters outside `[-1, 1]` and
`[10, 200]`. -/
theorem setter_no_clamp_cex :
    (setCorrelation initialState 2).corr = 2 ∧
    ¬((setCorrelation initialState 2).corr ≤ 1) ∧
    (setSampleSize initialState 500).sampleSize = 500 ∧
    ¬((setSampleSize initialState 500).sampleSize ≤ 200) :=
  ⟨rfl, by norm_num [setCorrelation], rfl, by norm_num [setSampleSize]⟩

/-- Claim C9: every parameter transition forces the display mode to Baseline,
the fit action forces Fitted while leaving the parameters unchanged, and a
step yields Fitted exactly when the action is the fit click (so Fitted
persists under repeated fit clicks and is lost exactly on the next parameter
change). -/
theorem display_mode_invariant (s : AppState) (r : ℝ) (n : ℕ) (a : Action) :
    displayMode (step s (Action.setCorr r)) = DisplayMode.Baseline ∧
    displayMode (step s (Action.setSize n)) = DisplayMode.Baseline ∧
    (displayMode (step s Action.fitClick) = DisplayMode.Fitted ∧
      (step s Action.fitClick).corr = s.corr ∧
      (step s Action.fitClick).sampleSize = s.sampleSize) ∧
    (displayMode (step s a) = DisplayMode.Fitted ↔ a = Action.fitClick) := by
  refine ⟨rfl, rfl, ⟨rfl, rfl, rfl⟩, ?_⟩
  cases a with
  | setCorr r2 => simp [step, setCorrelation, displayMode]
  | setSize n2 => simp [step, setSampleSize, displayMode]
  | fitClick => simp [step, fitTransition, displayMode]

/-- Claim C10: every residual segment runs from a sample point `(x, y)` to
`(x, slope·x + intercept)` with the fitted regression of the current sample,
one segment per point in sample order, and the residual segments do not
depend on the `fitLine` flag (the display mode). -/
theorem residual_lines_from_fitted_regression (s : AppState) (draws : ℕ → ℝ × ℝ)
    (b1 b2 : Bool) :
    ((render s draws).residualLines = (render s draws).scatterData.map fun d =>
      [⟨d.x, d.y⟩, ⟨d.x, (computeRegressionLine (render s draws).scatterData).slope * d.x +
        (computeRegressionLine (render s draws).scatterData).intercept⟩]) ∧
    (render ⟨s.corr, s.sampleSize, b1, s.showDistances⟩ draws).residualLines =
      (render ⟨s.corr, s.sampleSize, b2, s.showDistances⟩ draws).residualLines :=
  ⟨rfl, rfl⟩

end CorrVis
